import Mathlib

/-!
Verification of the NeDRex job-orchestration core and graph construction
engine, shallowly embedded from `src/api/api/app/routers/{graph,trustrank,
closeness,must}.py`.

Job records live in per-kind MongoDB collections; the submit endpoints
normalize user parameters into a query dictionary, look the query up with
`find_one`, and either return the stored record's `uid` or insert a fresh
record (status `submitted`) and schedule a background task.  We model each
collection as a list of records (insertion order preserved, as in MongoDB),
`find_one` as first-match lookup, and the normalization functions exactly as
the Python routers compute them.
-/

namespace NedRex

/-- A job record as stored in a per-kind collection: the normalized query
parameters, the client-facing `uid` (a UUID string), the `status` field and
an optional `error` field. -/
structure Record (Q : Type) where
  params : Q
  uid : String
  status : String
  error : Option String := none
deriving DecidableEq, Repr

/-- `collection.find_one(query)`: MongoDB returns the first stored document
matching the query.  All documents of a job collection carry exactly the
normalized parameter fields (plus uid/status/...), so a document matches the
submitted query iff its parameter fields equal the query. -/
def find_one {Q : Type} [DecidableEq Q] (coll : List (Record Q)) (q : Q) :
    Option (Record Q) :=
  coll.find? (fun r => r.params = q)

/-- `collection.insert_one(document)`: appends the document. -/
def insert_one {Q : Type} (coll : List (Record Q)) (r : Record Q) :
    List (Record Q) :=
  coll ++ [r]

/-- Number of records stored for a given set of normalized parameters. -/
def countFor {Q : Type} [DecidableEq Q] (coll : List (Record Q)) (q : Q) : Nat :=
  (coll.filter (fun r => r.params = q)).length

/-- The sequential submit path shared by all job routers (`graph_builder`,
`trustrank_submit`, `closeness_submit`, `must_submit`): `find_one` on the
normalized query; on a hit return the stored `uid`, on a miss insert a fresh
record with status `"submitted"` (uid from `uuid.uuid4()`, modelled by the
argument `fresh`) and schedule the background task.  Returns the uid handed
to the caller and the updated collection. -/
def submit {Q : Type} [DecidableEq Q] (coll : List (Record Q)) (q : Q)
    (fresh : String) : String × List (Record Q) :=
  match find_one coll q with
  | some r => (r.uid, coll)
  | none => (fresh, insert_one coll ⟨q, fresh, "submitted", none⟩)

/-!
Two-submitter interleaving model for the find-or-create path.

`trustrank_submit` (and `closeness_submit`, `must_submit`) run `find_one`
*outside* `DB_LOCK` and only the `insert_one` inside it, so a submit call is
two atomic actions; `graph_builder` holds `DB_LOCK` around both the
`find_one` and the `insert_one`, so its find-or-create is a single atomic
action.  A schedule is a list of booleans choosing which of the two
submitters (both submitting the same normalized query `q`) performs its next
atomic action; a submitter that has finished ignores further turns.
-/

/-- State of one submitter in the unlocked (trustrank-style) model:
`found` records the result of its `find_one` step once taken (`some (some u)`
hit with stored uid `u`, `some none` miss), `ret` the uid finally returned. -/
structure SubmitterState where
  found : Option (Option String)
  ret : Option String
deriving DecidableEq, Repr

/-- Whole-system state: the collection, the number of background-task
schedulings (`background_tasks.add_task` calls), and the two submitters. -/
structure SystemState (Q : Type) where
  coll : List (Record Q)
  runs : Nat
  sub1 : SubmitterState
  sub2 : SubmitterState
deriving DecidableEq, Repr

/-- Initial system state: empty collection, no runs, both submitters idle. -/
def initSystem (Q : Type) : SystemState Q :=
  ⟨[], 0, ⟨none, none⟩, ⟨none, none⟩⟩

/-- Read the stepping submitter (`false` = first, `true` = second). -/
def SystemState.sub {Q : Type} (s : SystemState Q) (who : Bool) : SubmitterState :=
  if who then s.sub2 else s.sub1

/-- Replace the stepping submitter's state. -/
def SystemState.setSub {Q : Type} (s : SystemState Q) (who : Bool)
    (st : SubmitterState) : SystemState Q :=
  if who then { s with sub2 := st } else { s with sub1 := st }

/-- One atomic action of the unlocked (trustrank/closeness/MuST) submit:
first turn runs `find_one` with no lock held; second turn either returns the
uid seen (hit) or, under `DB_LOCK`, inserts a fresh record and schedules the
task (miss).  The miss branch does not re-check the collection — exactly as
in `trustrank_submit`. -/
def stepUnlocked {Q : Type} [DecidableEq Q] (q : Q) (fresh1 fresh2 : String)
    (s : SystemState Q) (who : Bool) : SystemState Q :=
  let sub := s.sub who
  match sub.found, sub.ret with
  | none, _ =>
      s.setSub who ⟨some ((find_one s.coll q).map Record.uid), none⟩
  | some (some u), none =>
      s.setSub who ⟨sub.found, some u⟩
  | some none, none =>
      let fresh := if who then fresh2 else fresh1
      { (s.setSub who ⟨sub.found, some fresh⟩) with
        coll := insert_one s.coll ⟨q, fresh, "submitted", none⟩,
        runs := s.runs + 1 }
  | some _, some _ => s

/-- One atomic action of the locked (graph_builder) submit: `find_one` and
the conditional `insert_one` + task scheduling happen inside one `DB_LOCK`
critical section. -/
def stepLocked {Q : Type} [DecidableEq Q] (q : Q) (fresh1 fresh2 : String)
    (s : SystemState Q) (who : Bool) : SystemState Q :=
  let sub := s.sub who
  match sub.ret with
  | some _ => s
  | none =>
      match find_one s.coll q with
      | some r => s.setSub who ⟨sub.found, some r.uid⟩
      | none =>
          let fresh := if who then fresh2 else fresh1
          { (s.setSub who ⟨sub.found, some fresh⟩) with
            coll := insert_one s.coll ⟨q, fresh, "submitted", none⟩,
            runs := s.runs + 1 }

/-- Run a schedule of the unlocked two-submitter system from the initial
state. -/
def runUnlocked {Q : Type} [DecidableEq Q] (q : Q) (fresh1 fresh2 : String)
    (sched : List Bool) : SystemState Q :=
  sched.foldl (stepUnlocked q fresh1 fresh2) (initSystem Q)

/-- Run a schedule of the locked two-submitter system from the initial
state. -/
def runLocked {Q : Type} [DecidableEq Q] (q : Q) (fresh1 fresh2 : String)
    (sched : List Bool) : SystemState Q :=
  sched.foldl (stepLocked q fresh1 fresh2) (initSystem Q)

/-- Invariant of the locked system: the number of scheduled runs equals the
number of records stored for `q` and is at most one, and any uid already
returned to a caller is the uid `find_one` yields on the collection. -/
def lockedInv {Q : Type} [DecidableEq Q] (q : Q) (s : SystemState Q) : Prop :=
  s.runs ≤ 1 ∧ countFor s.coll q = s.runs ∧
  (∀ u, s.sub1.ret = some u → ∃ r, find_one s.coll q = some r ∧ r.uid = u) ∧
  (∀ u, s.sub2.ret = some u → ∃ r, find_one s.coll q = some r ∧ r.uid = u)

/-!
Parameter normalization, from `trustrank_submit` (lines 50–66) and
`graph_builder` (lines 189–234).
-/

/-- The characters of the string `"uniprot."`. -/
def uniprotPat : List Char := "uniprot.".toList

/-- Python's `s.replace("uniprot.", "")` on the character list of `s`: scan
left to right, dropping every (non-overlapping) occurrence of the pattern. -/
def stripUniprotChars : List Char → List Char
  | [] => []
  | c :: cs =>
    if (c :: cs).take 8 = uniprotPat then
      stripUniprotChars ((c :: cs).drop 8)
    else
      c :: stripUniprotChars cs
termination_by l => l.length
decreasing_by
  · simp; omega
  · simp

/-- `i.replace("uniprot.", "")` as used on each submitted seed. -/
def stripUniprot (s : String) : String :=
  (stripUniprotChars s.toList).asString

/-- Python's `sorted` on a list of strings (lexicographic order). -/
def sortStrings (l : List String) : List String :=
  l.mergeSort

/-- The normalized trustrank query dictionary built by `trustrank_submit`:
seeds are prefix-stripped and sorted, the damping factor defaults to `0.85`,
both drug flags default to `True`, and `N` is stored as given (possibly
null). -/
structure TrustrankQuery where
  seed_proteins : List String
  damping_factor : ℚ
  only_direct_drugs : Bool
  only_approved_drugs : Bool
  N : Option Int
deriving DecidableEq, Repr

/-- `trustrank_submit`'s normalization of the request into the dedup query. -/
def trustrankQuery (seeds : List String) (damping_factor : Option ℚ)
    (only_direct_drugs only_approved_drugs : Option Bool) (N : Option Int) :
    TrustrankQuery :=
  { seed_proteins := sortStrings (seeds.map stripUniprot),
    damping_factor := damping_factor.getD (85 / 100),
    only_direct_drugs := only_direct_drugs.getD true,
    only_approved_drugs := only_approved_drugs.getD true,
    N := N }

/-- `DEFAULT_NODE_COLLECTIONS` from `graph.py`. -/
def DEFAULT_NODE_COLLECTIONS : List String :=
  ["disorder", "drug", "gene", "protein"]

/-- `DEFAULT_EDGE_COLLECTIONS` from `graph.py` (source order). -/
def DEFAULT_EDGE_COLLECTIONS : List String :=
  ["disorder_is_subtype_of_disorder",
   "drug_has_indication",
   "drug_has_target",
   "gene_associated_with_disorder",
   "protein_encoded_by",
   "protein_interacts_with_protein",
   "disorder_comorbid_with_disorder"]

/-- `graph_builder`'s normalization of `disgenet_threshold` (graph.py lines
215–220): omitted → `0`, negative → `-1`, greater than `1` → `2.0`. -/
def normalize_disgenet_threshold : Option ℚ → ℚ
  | none => 0
  | some t => if t < 0 then -1 else if t > 1 then 2 else t

/-- The normalized graph-build query dictionary (`dict(build_request)` plus
the metadata `version`) used as the dedup key in `graph_builder`. -/
structure GraphQuery where
  nodes : List String
  edges : List String
  iid_evidence : List String
  ppi_self_loops : Bool
  taxid : List Int
  drug_groups : List String
  concise : Bool
  include_omim : Bool
  disgenet_threshold : ℚ
  use_omim_ids : Bool
  split_drug_types : Bool
  version : String
deriving DecidableEq, Repr

/-- `graph_builder`'s normalization (graph.py lines 189–234): each omitted
parameter is default-filled; `nodes`/`edges` default to the *sorted* default
collections but a user-supplied list is used verbatim; the DisGeNET
threshold is clamped as in `normalize_disgenet_threshold`. -/
def graphQuery (nodes edges iid_evidence : Option (List String))
    (ppi_self_loops : Option Bool) (taxid : Option (List Int))
    (drug_groups : Option (List String)) (include_omim : Option Bool)
    (disgenet_threshold : Option ℚ)
    (concise use_omim_ids split_drug_types : Option Bool)
    (version : String) : GraphQuery :=
  { nodes := nodes.getD (sortStrings DEFAULT_NODE_COLLECTIONS),
    edges := edges.getD (sortStrings DEFAULT_EDGE_COLLECTIONS),
    iid_evidence := iid_evidence.getD ["exp"],
    ppi_self_loops := ppi_self_loops.getD false,
    taxid := taxid.getD [9606],
    drug_groups := drug_groups.getD ["approved"],
    concise := concise.getD true,
    include_omim := include_omim.getD true,
    disgenet_threshold := normalize_disgenet_threshold disgenet_threshold,
    use_omim_ids := use_omim_ids.getD false,
    split_drug_types := split_drug_types.getD false,
    version := version }

/-!
Status-trace model of the background task executors.

Each task body updates its record's `status` (and sometimes `error`) via
`update_one({"$set": ...})`.  We model one execution as the list of status
updates it performs, parameterized by the points at which the outside world
may intervene: whether the record is present, an exception raised before or
after the subprocess call (with its message), the subprocess exit code, and
whether the `N` post-processing branch is taken.  The `*_wrapper` functions
are the outermost `try/except` blocks of the background tasks.
-/

/-- One `$set` write of `status` (with `error` when the write sets it). -/
structure StatusUpdate where
  status : String
  error : Option String := none
deriving DecidableEq, Repr

/-- What a job body did: its updates, and the message of an uncaught
exception if one escaped the body. -/
abbrev BodyResult := List StatusUpdate × Option String

/-- `{"$set": {"status": "running"}}`. -/
def runningU : StatusUpdate := ⟨"running", none⟩

/-- `{"$set": {"status": "building"}}` (the graph constructor's wording). -/
def buildingU : StatusUpdate := ⟨"building", none⟩

/-- `{"$set": {"status": "completed"}}` (possibly together with results). -/
def completedU : StatusUpdate := ⟨"completed", none⟩

/-- `{"$set": {"status": "failed", "error": msg}}`. -/
def failedU (msg : String) : StatusUpdate := ⟨"failed", some msg⟩

/-- The outermost `try/except` of every background task: on an uncaught
exception, update the record to `failed` with the exception's message. -/
def wrapBody (b : BodyResult) : List StatusUpdate :=
  match b with
  | (us, none) => us
  | (us, some m) => us ++ [failedU m]

/-- `run_trustrank(uid)` (trustrank.py lines 125–216): raise if the record
is missing; set `running`; run the subprocess (an exception before/at that
point is `preExc`); a non-zero exit code writes `failed` with the exit-code
message and returns; with no `N` requested write `completed`; otherwise
post-process the results file (`postExc` models an exception there) and
write `completed`. -/
def run_trustrank (present : Bool) (preExc : Option String) (exitCode : Int)
    (nSet : Bool) (postExc : Option String) : BodyResult :=
  if present = false then ([], some "record missing")
  else
    match preExc with
    | some m => ([runningU], some m)
    | none =>
      if exitCode ≠ 0 then
        ([runningU, failedU ("Process exited with exit code " ++
          toString exitCode ++ " -- please contact API developer.")], none)
      else if nSet = false then ([runningU, completedU], none)
      else
        match postExc with
        | some m => ([runningU], some m)
        | none => ([runningU, completedU], none)

/-- `run_trustrank_wrapper` (trustrank.py lines 114–122). -/
def run_trustrank_wrapper (present : Bool) (preExc : Option String)
    (exitCode : Int) (nSet : Bool) (postExc : Option String) :
    List StatusUpdate :=
  wrapBody (run_trustrank present preExc exitCode nSet postExc)

/-- `run_closeness(uid)` (closeness.py lines 116–211): same shape as
`run_trustrank`. -/
def run_closeness (present : Bool) (preExc : Option String) (exitCode : Int)
    (nSet : Bool) (postExc : Option String) : BodyResult :=
  if present = false then ([], some "record missing")
  else
    match preExc with
    | some m => ([runningU], some m)
    | none =>
      if exitCode ≠ 0 then
        ([runningU, failedU ("Process exited with exit code " ++
          toString exitCode ++ " -- please contact API developer.")], none)
      else if nSet = false then ([runningU, completedU], none)
      else
        match postExc with
        | some m => ([runningU], some m)
        | none => ([runningU, completedU], none)

/-- `run_closeness_wrapper` (closeness.py lines 105–113). -/
def run_closeness_wrapper (present : Bool) (preExc : Option String)
    (exitCode : Int) (nSet : Bool) (postExc : Option String) :
    List StatusUpdate :=
  wrapBody (run_closeness present preExc exitCode nSet postExc)

/-- `run_must(uid)` (must.py lines 200–289): raise if the record is missing;
set `running`; build the network and invoke MuST (`preExc` covers exceptions
up to and including the subprocess call); non-zero exit writes `failed` with
the return-code message; then parse the output files (`postExc`) and write
`completed`. -/
def run_must (present : Bool) (preExc : Option String) (exitCode : Int)
    (postExc : Option String) : BodyResult :=
  if present = false then ([], some "record missing")
  else
    match preExc with
    | some m => ([runningU], some m)
    | none =>
      if exitCode ≠ 0 then
        ([runningU, failedU ("MuST exited with return code " ++
          toString exitCode ++
          " -- please check your inputs, and contact API developer if issues persist.")],
          none)
      else
        match postExc with
        | some m => ([runningU], some m)
        | none => ([runningU, completedU], none)

/-- `run_must_wrapper` (must.py lines 189–197). -/
def run_must_wrapper (present : Bool) (preExc : Option String)
    (exitCode : Int) (postExc : Option String) : List StatusUpdate :=
  wrapBody (run_must present preExc exitCode postExc)

/-- `graph_constructor(query)` (graph.py lines 358–627): first write is
`status = "building"`; any exception afterwards (`bodyExc`) escapes to the
wrapper; on success the GraphML file is written and then `completed`. -/
def graph_constructor_trace (bodyExc : Option String) : BodyResult :=
  match bodyExc with
  | some m => ([buildingU], some m)
  | none => ([buildingU, completedU], none)

/-- `graph_constructor_wrapper` (graph.py lines 348–355). -/
def graph_constructor_wrapper (bodyExc : Option String) : List StatusUpdate :=
  wrapBody (graph_constructor_trace bodyExc)

/-- The record's status history: `submitted` (set at creation) followed by
the statuses the executor wrote. -/
def statusHistory (w : List StatusUpdate) : List String :=
  "submitted" :: w.map StatusUpdate.status

/-- `completed` and `failed` are the terminal statuses. -/
def isTerminal (s : String) : Bool :=
  s == "completed" || s == "failed"

/-- The state-machine discipline with intermediate status `interm`: every
terminal entry is strictly preceded by an `interm` entry, and no entry after
a terminal one is `submitted`, `running`, or `interm`. -/
def statusOk (interm : String) (l : List String) : Prop :=
  (∀ i : Fin l.length, isTerminal (l.get i) →
    ∃ j : Fin l.length, j.1 < i.1 ∧ l.get j = interm) ∧
  (∀ i j : Fin l.length, i.1 < j.1 → isTerminal (l.get i) →
    l.get j ≠ "submitted" ∧ l.get j ≠ "running" ∧ l.get j ≠ interm)

/-- Status of the last update, if any. -/
def lastStatus (w : List StatusUpdate) : Option String :=
  w.getLast?.map StatusUpdate.status

/-- The trace ends in a terminal update, and if that update is `failed` it
carries an error string. -/
def wellTerminated (w : List StatusUpdate) : Bool :=
  match w.getLast? with
  | none => false
  | some u => u.status == "completed" || (u.status == "failed" && u.error.isSome)

instance statusOkDecidable (interm : String) (l : List String) :
    Decidable (statusOk interm l) := by
  unfold statusOk
  infer_instance

/-!
Model of `networkx.DiGraph` and the graph constructor's passes
(graph.py lines 358–627).

`nx.DiGraph` is a *simple* directed graph: `add_edge` on an existing
ordered endpoint pair updates (merges) that edge's attribute dict instead
of adding a parallel edge; `add_node` on an existing node merges
attributes; both keep insertion order.  Attribute dicts are modelled as
insertion-ordered association lists with unique keys, `dict.update`
overwriting in place.
-/

/-- An attribute value (string, boolean, integer, or float-as-rational). -/
inductive AValue where
  | s (v : String)
  | b (v : Bool)
  | i (v : Int)
  | q (v : ℚ)
deriving DecidableEq, Repr

/-- A Python attribute dict: insertion-ordered key/value pairs. -/
abbrev Attrs := List (String × AValue)

/-- `d.get(k)` / `d[k]` (as an option). -/
def getAttr (a : Attrs) (k : String) : Option AValue :=
  match a.find? (fun p => p.1 == k) with
  | some p => some p.2
  | none => none

/-- `d[k] = v`: overwrite the first (only) occurrence in place, else
append. -/
def setAttr : Attrs → String → AValue → Attrs
  | [], k, v => [(k, v)]
  | p :: t, k, v => if p.1 == k then (p.1, v) :: t else p :: setAttr t k v

/-- `d.update(upd)`: apply each pair of `upd` in order. -/
def updateAttrs (a : Attrs) (upd : Attrs) : Attrs :=
  upd.foldl (fun acc p => setAttr acc p.1 p.2) a

/-- `nx.DiGraph`: node list and directed edge list, insertion-ordered. -/
structure DiGraph where
  nodes : List (String × Attrs)
  edges : List (String × String × Attrs)
deriving DecidableEq, Repr

/-- `nx.DiGraph()`. -/
def DiGraph.empty : DiGraph := ⟨[], []⟩

/-- `n in G.nodes`. -/
def DiGraph.hasNode (g : DiGraph) (n : String) : Bool :=
  g.nodes.any (fun p => p.1 == n)

/-- `G.has_edge(u, v)`. -/
def DiGraph.hasEdge (g : DiGraph) (u v : String) : Bool :=
  g.edges.any (fun e => e.1 == u && e.2.1 == v)

/-- Add a bare node (as `add_edge` does for missing endpoints). -/
def ensureNode (ns : List (String × Attrs)) (n : String) :
    List (String × Attrs) :=
  if ns.any (fun p => p.1 == n) then ns else ns ++ [(n, [])]

/-- `G.add_node(n, **attrs)`: insert, or merge attributes into the existing
node. -/
def DiGraph.add_node (g : DiGraph) (n : String) (attrs : Attrs) : DiGraph :=
  { g with
    nodes :=
      if g.hasNode n then
        g.nodes.map (fun p => if p.1 == n then (p.1, updateAttrs p.2 attrs) else p)
      else g.nodes ++ [(n, attrs)] }

/-- `G.add_edge(u, v, **attrs)`: missing endpoints become attribute-less
nodes; an existing `(u, v)` edge has its attribute dict updated (DiGraph
admits no parallel edges), otherwise the edge is appended. -/
def DiGraph.add_edge (g : DiGraph) (u v : String) (attrs : Attrs) : DiGraph :=
  { nodes := ensureNode (ensureNode g.nodes u) v,
    edges :=
      if g.hasEdge u v then
        g.edges.map (fun e =>
          if e.1 == u && e.2.1 == v then (e.1, e.2.1, updateAttrs e.2.2 attrs) else e)
      else g.edges ++ [(u, v, attrs)] }

/-- `G.remove_nodes_from(ns)`: drops the nodes and their incident edges;
missing nodes are ignored. -/
def DiGraph.remove_nodes_from (g : DiGraph) (ns : List String) : DiGraph :=
  { nodes := g.nodes.filter (fun p => !ns.contains p.1),
    edges := g.edges.filter (fun e => !ns.contains e.1 && !ns.contains e.2.1) }

/-- `G.in_edges(n) or G.out_edges(n)`: `n` has at least one incident edge. -/
def hasIncident (g : DiGraph) (n : String) : Bool :=
  g.edges.any (fun e => e.1 == n || e.2.1 == n)

/-- Number of edges with ordered endpoint pair `(u, v)`. -/
def countEdges (g : DiGraph) (u v : String) : Nat :=
  (g.edges.filter (fun e => e.1 == u && e.2.1 == v)).length

/-!  The gene–disorder edge pass (graph.py lines 396–416). -/

/-- A `gene_associated_with_disorder` document (fields per the mongoengine
class `GeneAssociatedWithDisorder`): directed endpoints, asserting sources,
optional DisGeNET score. -/
structure GdaDoc where
  sourceDomainId : String
  targetDomainId : String
  assertedBy : List String
  score : Option ℚ
  type : String
deriving DecidableEq, Repr

/-- Cursor `c1`'s filter, `find({"assertedBy": "omim"})`: MongoDB matches
documents whose `assertedBy` array contains `"omim"`. -/
def gdaOmimMatch (d : GdaDoc) : Bool :=
  d.assertedBy.contains "omim"

/-- Cursor `c2`'s filter, `find({"score": {"$gte": t}})`: matches documents
carrying a score `≥ t`; a document without a score never matches. -/
def gdaScoreMatch (t : ℚ) (d : GdaDoc) : Bool :=
  match d.score with
  | some s => t ≤ s
  | none => false

/-- The documents `graph_constructor` iterates with `chain(c1, c2)`: the
OMIM-asserted documents (when `include_omim`) followed by the documents
meeting the DisGeNET threshold. -/
def gdaDocsAdded (include_omim : Bool) (t : ℚ) (docs : List GdaDoc) :
    List GdaDoc :=
  (if include_omim then docs.filter gdaOmimMatch else []) ++
    docs.filter (gdaScoreMatch t)

/-- `flatten(doc)` for a gene–disorder document (after `doc.pop("_id")`),
plus `reversible=False`: list attributes are comma-joined, a `None` score
becomes the string `"None"`. -/
def gdaAttrs (d : GdaDoc) : Attrs :=
  [("reversible", AValue.b false),
   ("sourceDomainId", AValue.s d.sourceDomainId),
   ("targetDomainId", AValue.s d.targetDomainId),
   ("assertedBy", AValue.s (String.intercalate ", " d.assertedBy)),
   ("score", match d.score with
     | some s => AValue.q s
     | none => AValue.s "None"),
   ("type", AValue.s d.type)]

/-- The gene–disorder edge pass itself: `G.add_edge(s, t, reversible=False,
**flatten(doc))` for each document of the chained cursors. -/
def gdaPass (g : DiGraph) (include_omim : Bool) (t : ℚ)
    (docs : List GdaDoc) : DiGraph :=
  (gdaDocsAdded include_omim t docs).foldl
    (fun acc d => acc.add_edge d.sourceDomainId d.targetDomainId (gdaAttrs d)) g

/-!  The generic edge pass (graph.py lines 418–456, concise mode). -/

/-- Endpoint syntax of a stored edge document: undirected
(`memberOne`/`memberTwo`) or directed (`sourceDomainId`/`targetDomainId`). -/
inductive EdgeEnds where
  | members (memberOne memberTwo : String)
  | sourceTarget (sourceDomainId targetDomainId : String)
deriving DecidableEq, Repr

/-- A stored edge document of a generic edge collection. -/
structure EdgeDoc where
  ends : EdgeEnds
  type : String
deriving DecidableEq, Repr

/-- One iteration of the generic edge loop in concise mode: undirected
documents get `reversible=True` and member attributes, directed ones
`reversible=False` and source/target attributes. -/
def addGenericEdge (g : DiGraph) (d : EdgeDoc) : DiGraph :=
  match d.ends with
  | .members m1 m2 =>
      g.add_edge m1 m2
        [("reversible", AValue.b true), ("type", AValue.s d.type),
         ("memberOne", AValue.s m1), ("memberTwo", AValue.s m2)]
  | .sourceTarget s t =>
      g.add_edge s t
        [("reversible", AValue.b false), ("sourceDomainId", AValue.s s),
         ("targetDomainId", AValue.s t), ("type", AValue.s d.type)]

/-- The generic edge pass over one collection's cursor. -/
def genericEdgePass (g : DiGraph) (docs : List EdgeDoc) : DiGraph :=
  docs.foldl addGenericEdge g

/-!  The isolated-node pruning pass (graph.py lines 567–583). -/

/-- `NODE_TYPE_MAP` from graph.py.  (`query["nodes"]` is validated against
`NODE_COLLECTIONS`, so only the six listed keys are ever looked up.) -/
def NODE_TYPE_MAP (coll : String) : List String :=
  if coll = "disorder" then ["Disorder"]
  else if coll = "drug" then ["Drug", "BiotechDrug", "SmallMoleculeDrug"]
  else if coll = "gene" then ["Gene"]
  else if coll = "pathway" then ["Pathway"]
  else if coll = "protein" then ["Protein"]
  else if coll = "signature" then ["Signature"]
  else []

/-- `nodes_requested = set(chain(*[NODE_TYPE_MAP[coll] for coll in
query["nodes"]]))` (membership in the list models membership in the set). -/
def nodes_requested (colls : List String) : List String :=
  (colls.map NODE_TYPE_MAP).flatten

/-- Whether the lone-node loop puts a node into `to_remove`: its `type`
attribute is not one of the requested type names and it has no incident
edge.  (A non-string `type` value is never in the requested set.) -/
def loneRemovable (g : DiGraph) (req : List String) (p : String × Attrs) : Bool :=
  match getAttr p.2 "type" with
  | some (.s t) => !req.contains t && !hasIncident g p.1
  | some _ => !hasIncident g p.1
  | none => false

/-- The pruning pass: `data["type"]` raises a `KeyError` if some node has no
`type` attribute (the whole build then fails); otherwise the removable nodes
are collected and removed after the loop.  Erroring mid-loop and erroring
up-front are indistinguishable because `to_remove` is only applied at the
end. -/
def sortingLoneNodes (g : DiGraph) (req : List String) :
    Except String DiGraph :=
  if g.nodes.all (fun p => (getAttr p.2 "type").isSome) then
    .ok (g.remove_nodes_from ((g.nodes.filter (loneRemovable g req)).map Prod.fst))
  else .error "KeyError: type"

/-!  The optional OMIM identifier-relabeling pass (graph.py lines 590–619). -/

/-- A `disorder` document as read in the relabel pass. -/
structure DisorderDoc where
  primaryDomainId : String
  domainIds : List String
deriving DecidableEq, Repr

/-- `[i for i in doc["domainIds"] if i.startswith("omim.")]` (prefix test
on the character list). -/
def omim_xrefs (d : DisorderDoc) : List String :=
  d.domainIds.filter (fun i => "omim.".toList.isPrefixOf i.toList)

/-- `defaultdict(list)` append. -/
def addToMultimap (m : List (String × List String)) (k v : String) :
    List (String × List String) :=
  if m.any (fun p => p.1 == k) then
    m.map (fun p => if p.1 == k then (p.1, p.2 ++ [v]) else p)
  else m ++ [(k, [v])]

/-- First stage of `mondomim_map`: for each disorder with exactly one OMIM
cross-reference, append its primary id to that OMIM id's bucket. -/
def mondomim_multimap (docs : List DisorderDoc) : List (String × List String) :=
  docs.foldl
    (fun m d =>
      match omim_xrefs d with
      | [x] => addToMultimap m x d.primaryDomainId
      | _ => m) []

/-- Second stage: `{v[0]: k for k, v in mondomim_map.items() if len(v) == 1
and v[0] in G.nodes}` — an (old primary id → OMIM id) relabel mapping. -/
def mondomim_map (docs : List DisorderDoc) (g : DiGraph) :
    List (String × String) :=
  (mondomim_multimap docs).foldl
    (fun acc p =>
      match p.2 with
      | [v] => if g.hasNode v then acc ++ [(v, p.1)] else acc
      | _ => acc) []

/-- Apply a relabel mapping to one node name. -/
def applyMap (m : List (String × String)) (n : String) : String :=
  match m.find? (fun p => p.1 == n) with
  | some p => p.2
  | none => n

/-- `nx.set_node_attributes(G, upd)`: merge attributes into the named nodes;
names absent from the graph are ignored. -/
def set_node_attributes (g : DiGraph) (upd : List (String × Attrs)) : DiGraph :=
  { g with
    nodes := g.nodes.map (fun p =>
      match upd.find? (fun q => q.1 == p.1) with
      | some q => (p.1, updateAttrs p.2 q.2)
      | none => p) }

/-- `nx.relabel_nodes(G, m)` (copy semantics): rebuild the graph, adding
every node and edge under its mapped name in iteration order (clashing names
merge, as in networkx). -/
def DiGraph.relabel_nodes (g : DiGraph) (m : List (String × String)) : DiGraph :=
  let g1 := g.nodes.foldl (fun acc p => acc.add_node (applyMap m p.1) p.2)
    DiGraph.empty
  g.edges.foldl
    (fun acc e => acc.add_edge (applyMap m e.1) (applyMap m e.2.1) e.2.2) g1

/-- One key of the stale-attribute repair loop: if the edge carries the key
and its value differs from the endpoint, overwrite it with the endpoint. -/
def fixKey (key : String) (val : AValue) (a : Attrs) : Attrs :=
  match getAttr a key with
  | some v => if v = val then a else setAttr a key val
  | none => a

/-- The body of the `for i, j, data in G.edges(data=True)` repair loop plus
`nx.set_edge_attributes`: the four endpoint-duplicating attributes are
rewritten to the (new) endpoints where they differ. -/
def fixEdgeAttrs (i j : String) (a : Attrs) : Attrs :=
  fixKey "targetDomainId" (AValue.s j)
    (fixKey "sourceDomainId" (AValue.s i)
      (fixKey "memberTwo" (AValue.s j)
        (fixKey "memberOne" (AValue.s i) a)))

/-- The whole `use_omim_ids` pass: compute the unambiguous OMIM mapping,
write the new `primaryDomainId` node attributes, relabel the nodes, then
repair the four endpoint-copy attributes on every edge. -/
def use_omim_ids_pass (g : DiGraph) (docs : List DisorderDoc) : DiGraph :=
  let m := mondomim_map docs g
  let g2 := set_node_attributes g
    (m.map (fun p => (p.1, [("primaryDomainId", AValue.s p.2)])))
  let g3 := g2.relabel_nodes m
  { g3 with
    edges := g3.edges.map (fun e => (e.1, e.2.1, fixEdgeAttrs e.1 e.2.1 e.2.2)) }

/-- A two-node fixture for the pruning pass: a protein with no incident
edge and a disorder. -/
def pruneExampleGraph : DiGraph :=
  ⟨[("a", [("type", AValue.s "Protein")]), ("b", [("type", AValue.s "Disorder")])], []⟩

/-- A fixture for the relabel pass: a disorder node with one gene edge whose
attributes duplicate the endpoints. -/
def relabelExampleGraph : DiGraph :=
  ⟨[("mondo.1", [("type", AValue.s "Disorder")]),
    ("gene.7", [("type", AValue.s "Gene")])],
   [("gene.7", "mondo.1",
     [("reversible", AValue.b false), ("sourceDomainId", AValue.s "gene.7"),
      ("targetDomainId", AValue.s "mondo.1"),
      ("type", AValue.s "GeneAssociatedWithDisorder")])]⟩

/-- The disorder collection for the relabel fixture: `mondo.1` has exactly
one OMIM cross-reference. -/
def relabelExampleDocs : List DisorderDoc :=
  [⟨"mondo.1", ["omim.5"]⟩]

end NedRex

namespace NedRex

theorem find_one_eq_none_iff {Q : Type} [DecidableEq Q]
    (coll : List (Record Q)) (q : Q) :
    find_one coll q = none ↔ countFor coll q = 0 := by
  simp [find_one, countFor, List.find?_eq_none, List.filter_eq_nil_iff,
    List.length_eq_zero]

theorem countFor_pos_of_find_one {Q : Type} [DecidableEq Q]
    {coll : List (Record Q)} {q : Q} {r : Record Q}
    (h : find_one coll q = some r) : 1 ≤ countFor coll q := by
  have hmem := List.find?_some h
  have hmem' := List.mem_of_find?_eq_some h
  have : r ∈ coll.filter (fun r => r.params = q) := by
    rw [List.mem_filter]; exact ⟨hmem', hmem⟩
  have := List.length_pos_of_mem this
  simpa [countFor] using this

/-- **C1.** Submitting a job twice with identical normalized parameters,
sequentially, returns the same UID both times and leaves exactly one job
record for those parameters in the job store.  Stated generically over the
query type, which covers every job kind (graph build, trustrank, closeness,
MuST): all four routers instantiate the same find-one/insert-one submit
pattern, differing only in their normalization (modelled separately).  The
hypothesis states the store invariant that sequential operation maintains:
at most one record per set of normalized parameters. -/
theorem submit_sequential_idempotent {Q : Type} [DecidableEq Q]
    (coll : List (Record Q)) (q : Q) (f1 f2 : String)
    (h : countFor coll q ≤ 1) :
    (submit coll q f1).1 = (submit (submit coll q f1).2 q f2).1 ∧
    countFor (submit (submit coll q f1).2 q f2).2 q = 1 ∧
    (submit (submit coll q f1).2 q f2).2 = (submit coll q f1).2 := by
  cases hfind : find_one coll q with
  | some r =>
    have h1 : 1 ≤ countFor coll q := countFor_pos_of_find_one hfind
    have hcount : countFor coll q = 1 := le_antisymm h h1
    simp [submit, hfind, hcount]
  | none =>
    have hcount : countFor coll q = 0 := (find_one_eq_none_iff coll q).mp hfind
    have hf' : List.find? (fun r => decide (r.params = q)) coll = none := hfind
    have hfind2 : find_one (insert_one coll ⟨q, f1, "submitted", none⟩) q =
        some ⟨q, f1, "submitted", none⟩ := by
      simp only [find_one, insert_one, List.find?_append]
      rw [hf']
      simp
    have hfilter : coll.filter (fun r => decide (r.params = q)) = [] := by
      have := hcount
      simpa [countFor, List.length_eq_zero] using this
    have hfind2' : find_one
        (coll ++ [⟨q, f1, "submitted", none⟩]) q =
        some ⟨q, f1, "submitted", none⟩ := hfind2
    simp [submit, hfind, hfind2', countFor, insert_one, List.filter_append, hfilter]

theorem find_one_insert_of_none {Q : Type} [DecidableEq Q]
    {coll : List (Record Q)} {q : Q} (h : find_one coll q = none)
    (r : Record Q) (hr : r.params = q) :
    find_one (insert_one coll r) q = some r := by
  have h' : List.find? (fun x => decide (x.params = q)) coll = none := h
  simp [find_one, insert_one, List.find?_append, h', hr]

theorem countFor_insert {Q : Type} [DecidableEq Q]
    (coll : List (Record Q)) (q : Q) (r : Record Q) (hr : r.params = q) :
    countFor (insert_one coll r) q = countFor coll q + 1 := by
  simp [countFor, insert_one, List.filter_append, hr]

theorem setSub_coll {Q : Type} (s : SystemState Q) (who : Bool)
    (st : SubmitterState) : (s.setSub who st).coll = s.coll := by
  cases who <;> rfl

theorem setSub_runs {Q : Type} (s : SystemState Q) (who : Bool)
    (st : SubmitterState) : (s.setSub who st).runs = s.runs := by
  cases who <;> rfl

theorem lockedInv_preserved {Q : Type} [DecidableEq Q] (q : Q) (f1 f2 : String)
    (s : SystemState Q) (who : Bool) (h : lockedInv q s) :
    lockedInv q (stepLocked q f1 f2 s who) := by
  obtain ⟨hruns, hcount, h1, h2⟩ := h
  have hcz : find_one s.coll q = none → s.runs = 0 := by
    intro hf
    have := (find_one_eq_none_iff s.coll q).mp hf
    omega
  cases who
  case false =>
    cases hr : s.sub1.ret with
    | some u =>
      have hstep : stepLocked q f1 f2 s false = s := by
        simp [stepLocked, SystemState.sub, hr]
      rw [hstep]
      exact ⟨hruns, hcount, h1, h2⟩
    | none =>
      cases hf : find_one s.coll q with
      | some r =>
        have hstep : stepLocked q f1 f2 s false =
            { s with sub1 := ⟨s.sub1.found, some r.uid⟩ } := by
          simp [stepLocked, SystemState.sub, SystemState.setSub, hr, hf]
        rw [hstep]
        refine ⟨hruns, hcount, ?_, h2⟩
        intro u hu
        simp only at hu
        cases hu
        exact ⟨r, hf, rfl⟩
      | none =>
        have hz : s.runs = 0 := hcz hf
        have hc0 : countFor s.coll q = 0 := by omega
        have hstep : stepLocked q f1 f2 s false =
            { coll := insert_one s.coll ⟨q, f1, "submitted", none⟩,
              runs := s.runs + 1,
              sub1 := ⟨s.sub1.found, some f1⟩, sub2 := s.sub2 } := by
          simp [stepLocked, SystemState.sub, SystemState.setSub, hr, hf]
        rw [hstep]
        refine ⟨show s.runs + 1 ≤ 1 by omega, ?_, ?_, ?_⟩
        · show countFor (insert_one s.coll ⟨q, _, "submitted", none⟩) q = s.runs + 1
          rw [countFor_insert s.coll q _ rfl]; omega
        · intro u hu
          simp only at hu
          cases hu
          exact ⟨_, find_one_insert_of_none hf _ rfl, rfl⟩
        · intro u hu
          simp only at hu
          obtain ⟨r, hfr, _⟩ := h2 u hu
          rw [hf] at hfr; cases hfr
  case true =>
    cases hr : s.sub2.ret with
    | some u =>
      have hstep : stepLocked q f1 f2 s true = s := by
        simp [stepLocked, SystemState.sub, hr]
      rw [hstep]
      exact ⟨hruns, hcount, h1, h2⟩
    | none =>
      cases hf : find_one s.coll q with
      | some r =>
        have hstep : stepLocked q f1 f2 s true =
            { s with sub2 := ⟨s.sub2.found, some r.uid⟩ } := by
          simp [stepLocked, SystemState.sub, SystemState.setSub, hr, hf]
        rw [hstep]
        refine ⟨hruns, hcount, h1, ?_⟩
        intro u hu
        simp only at hu
        cases hu
        exact ⟨r, hf, rfl⟩
      | none =>
        have hz : s.runs = 0 := hcz hf
        have hc0 : countFor s.coll q = 0 := by omega
        have hstep : stepLocked q f1 f2 s true =
            { coll := insert_one s.coll ⟨q, f2, "submitted", none⟩,
              runs := s.runs + 1,
              sub1 := s.sub1, sub2 := ⟨s.sub2.found, some f2⟩ } := by
          simp [stepLocked, SystemState.sub, SystemState.setSub, hr, hf]
        rw [hstep]
        refine ⟨show s.runs + 1 ≤ 1 by omega, ?_, ?_, ?_⟩
        · show countFor (insert_one s.coll ⟨q, _, "submitted", none⟩) q = s.runs + 1
          rw [countFor_insert s.coll q _ rfl]; omega
        · intro u hu
          simp only at hu
          obtain ⟨r, hfr, _⟩ := h1 u hu
          rw [hf] at hfr; cases hfr
        · intro u hu
          simp only at hu
          cases hu
          exact ⟨_, find_one_insert_of_none hf _ rfl, rfl⟩

theorem lockedInv_run {Q : Type} [DecidableEq Q] (q : Q) (f1 f2 : String)
    (sched : List Bool) : lockedInv q (runLocked q f1 f2 sched) := by
  suffices h : ∀ s, lockedInv q s → lockedInv q (sched.foldl (stepLocked q f1 f2) s) by
    apply h
    refine ⟨by simp [initSystem], by simp [initSystem, countFor], ?_, ?_⟩ <;>
      · intro u hu; simp [initSystem] at hu
  induction sched with
  | nil => intro s hs; exact hs
  | cons a t ih =>
    intro s hs
    exact ih _ (lockedInv_preserved q f1 f2 s a hs)

/-- **C2 (amended).** With the find-or-create executed as a single critical
section — as `graph_builder` does, holding `DB_LOCK` around both `find_one`
and the conditional `insert_one`/scheduling — every interleaving of two
submitters with the same fingerprint yields at most one record, at most one
executor run, and both callers receive the same UID.  (As stated over
`trustrank_submit` the claim is false: there `find_one` runs outside the
lock, see the counterexample.) -/
theorem graphBuilder_findOrCreate_atomic {Q : Type} [DecidableEq Q]
    (q : Q) (f1 f2 : String) (sched : List Bool) :
    countFor (runLocked q f1 f2 sched).coll q ≤ 1 ∧
    (runLocked q f1 f2 sched).runs ≤ 1 ∧
    ∀ u1 u2, (runLocked q f1 f2 sched).sub1.ret = some u1 →
      (runLocked q f1 f2 sched).sub2.ret = some u2 → u1 = u2 := by
  obtain ⟨hruns, hcount, h1, h2⟩ := lockedInv_run q f1 f2 sched
  refine ⟨by omega, hruns, ?_⟩
  intro u1 u2 hu1 hu2
  obtain ⟨r1, hf1, he1⟩ := h1 u1 hu1
  obtain ⟨r2, hf2, he2⟩ := h2 u2 hu2
  rw [hf1] at hf2
  cases hf2
  rw [← he1, ← he2]

/-- Witness for C2's amended theorem: schedule where submitter 1 creates and
submitter 2 then observes the record; both receive `"uid-a"`. -/
theorem graphBuilder_findOrCreate_atomic_witness :
    (runLocked "p" "uid-a" "uid-b" [false, true]).sub1.ret = some "uid-a" ∧
    (runLocked "p" "uid-a" "uid-b" [false, true]).sub2.ret = some "uid-a" ∧
    ("uid-a" : String) = "uid-a" := by
  refine ⟨by decide, by decide, ?_⟩
  exact (graphBuilder_findOrCreate_atomic "p" "uid-a" "uid-b" [false, true]).2.2
    "uid-a" "uid-a" (by decide) (by decide)

/-- **C2 counterexample.** In `trustrank_submit` the `find_one` happens
outside `DB_LOCK`, so the interleaving find₁, find₂, insert₁, insert₂ of two
submitters with the same fingerprint leaves two records, schedules two
executor runs, and hands the callers different UIDs — refuting the claim
that no interleaving produces two records or two runs for one fingerprint. -/
theorem trustrank_findOrCreate_race :
    countFor (runUnlocked "p" "uid-a" "uid-b" [false, true, false, true]).coll "p" = 2 ∧
    (runUnlocked "p" "uid-a" "uid-b" [false, true, false, true]).runs = 2 ∧
    (runUnlocked "p" "uid-a" "uid-b" [false, true, false, true]).sub1.ret ≠
      (runUnlocked "p" "uid-a" "uid-b" [false, true, false, true]).sub2.ret := by
  decide

theorem stripUniprotChars_append_pat (l : List Char) :
    stripUniprotChars (uniprotPat ++ l) = stripUniprotChars l := by
  have hlen : uniprotPat.length = 8 := by decide
  have htake : (uniprotPat ++ l).take 8 = uniprotPat := by
    rw [← hlen]
    exact List.take_left uniprotPat l
  have hdrop : (uniprotPat ++ l).drop 8 = l := by
    rw [← hlen]
    exact List.drop_left uniprotPat l
  rw [show uniprotPat ++ l = 'u' :: (['n', 'i', 'p', 'r', 'o', 't', '.'] ++ l) from rfl]
  rw [stripUniprotChars]
  rw [show ('u' :: (['n', 'i', 'p', 'r', 'o', 't', '.'] ++ l)) = uniprotPat ++ l from rfl]
  rw [htake, hdrop]
  simp

theorem stripUniprot_prefixed (s : String) :
    stripUniprot ("uniprot." ++ s) = stripUniprot s := by
  have hdata : ("uniprot." ++ s).toList = uniprotPat ++ s.toList := by
    simp [uniprotPat]
  simp only [stripUniprot, hdata, stripUniprotChars_append_pat]

theorem forall2_stripUniprot_map {s1 s2 : List String}
    (hpre : List.Forall₂ (fun a b => b = a ∨ b = "uniprot." ++ a) s1 s2) :
    s2.map stripUniprot = s1.map stripUniprot := by
  induction hpre with
  | nil => rfl
  | cons h _ ih =>
    cases h with
    | inl h => simp [h, ih]
    | inr h => simp [h, ih, stripUniprot_prefixed]

theorem sortStrings_perm_eq {l1 l2 : List String} (h : l1.Perm l2) :
    sortStrings l1 = sortStrings l2 :=
  List.eq_of_perm_of_sorted
    (((List.mergeSort_perm l1 _).trans h).trans (List.mergeSort_perm l2 _).symm)
    (List.sorted_mergeSort' l1) (List.sorted_mergeSort' l2)

/-- **C3 (amended).** For the ranking submit paths (trustrank, closeness):
two seed lists that agree elementwise up to an optional `"uniprot."` prefix,
and a reordering of such a list, produce the same normalized query and hence
the same dedup key.  (As stated the claim is false: duplicated list elements
are *not* collapsed — the seed list is sorted but not de-duplicated — and the
graph builder's list-valued parameters are keyed verbatim, without sorting or
de-duplication; see the counterexample.) -/
theorem trustrank_dedupKey_order_and_prefix_invariant
    (s1 s2 s3 : List String) (damping : Option ℚ) (dd ad : Option Bool)
    (N : Option Int)
    (hpre : List.Forall₂ (fun a b => b = a ∨ b = "uniprot." ++ a) s1 s2)
    (hperm : s3.Perm s2) :
    trustrankQuery s3 damping dd ad N = trustrankQuery s1 damping dd ad N := by
  have hmap : s2.map stripUniprot = s1.map stripUniprot :=
    forall2_stripUniprot_map hpre
  have hperm' : (s3.map stripUniprot).Perm (s1.map stripUniprot) := by
    rw [← hmap]
    exact hperm.map _
  simp [trustrankQuery, sortStrings_perm_eq hperm']

/-- Witness for C3's amended theorem: `["uniprot.P1", "P2"]` is a reordering
of the prefixed form of `["P2", "P1"]` and yields the same dedup key. -/
theorem trustrank_dedupKey_order_and_prefix_invariant_witness :
    List.Forall₂ (fun a b => b = a ∨ b = "uniprot." ++ a) ["P2", "P1"]
      ["P2", "uniprot.P1"] ∧
    (["uniprot.P1", "P2"] : List String).Perm ["P2", "uniprot.P1"] ∧
    trustrankQuery ["uniprot.P1", "P2"] none none none none =
      trustrankQuery ["P2", "P1"] none none none none := by
  refine ⟨?_, ?_, ?_⟩
  · exact List.Forall₂.cons (Or.inl rfl) (List.Forall₂.cons (Or.inr rfl) List.Forall₂.nil)
  · decide
  · exact trustrank_dedupKey_order_and_prefix_invariant ["P2", "P1"]
      ["P2", "uniprot.P1"] ["uniprot.P1", "P2"] none none none none
      (List.Forall₂.cons (Or.inl rfl) (List.Forall₂.cons (Or.inr rfl) List.Forall₂.nil))
      (by decide)

/-- **C3 counterexample.** A duplicated trustrank seed is kept (the seed list
is sorted but not de-duplicated), and the graph builder uses a user-supplied
node list verbatim (unsorted), so submissions differing only in duplication
(resp. ordering) of list-valued parameters get different dedup keys. -/
theorem dedupKey_duplication_order_counterexample :
    trustrankQuery ["P12345", "P12345"] none none none none ≠
      trustrankQuery ["P12345"] none none none none ∧
    graphQuery (some ["drug", "disorder"]) none none none none none none none
        none none none "2.6.0" ≠
      graphQuery (some ["disorder", "drug"]) none none none none none none none
        none none none "2.6.0" := by
  constructor
  · intro h
    have hlen : (trustrankQuery ["P12345", "P12345"] none none none none).seed_proteins.length =
        (trustrankQuery ["P12345"] none none none none).seed_proteins.length := by
      rw [h]
    have hsort : ∀ l : List String, (sortStrings l).length = l.length :=
      fun l => (List.mergeSort_perm l _).length_eq
    simp [trustrankQuery, hsort] at hlen
  · intro h
    have hn := congrArg GraphQuery.nodes h
    simp [graphQuery] at hn

/-- **C10.** `graph_builder` normalizes `disgenet_threshold` before the dedup
lookup: omitted becomes `0`, a negative value becomes `-1`, a value greater
than `1` becomes `2.0`; hence two submissions whose thresholds are both
negative (or both greater than `1`), with all other normalized parameters
equal, produce equal dedup keys. -/
theorem graph_disgenet_threshold_normalization
    (nodes edges iid : Option (List String)) (loops : Option Bool)
    (taxid : Option (List Int)) (groups : Option (List String))
    (omim : Option Bool) (conc oIds split : Option Bool) (version : String) :
    normalize_disgenet_threshold none = 0 ∧
    (∀ t : ℚ, t < 0 → normalize_disgenet_threshold (some t) = -1) ∧
    (∀ t : ℚ, 1 < t → normalize_disgenet_threshold (some t) = 2) ∧
    (∀ t1 t2 : ℚ, t1 < 0 → t2 < 0 →
      graphQuery nodes edges iid loops taxid groups omim (some t1) conc oIds split version =
        graphQuery nodes edges iid loops taxid groups omim (some t2) conc oIds split version) ∧
    (∀ t1 t2 : ℚ, 1 < t1 → 1 < t2 →
      graphQuery nodes edges iid loops taxid groups omim (some t1) conc oIds split version =
        graphQuery nodes edges iid loops taxid groups omim (some t2) conc oIds split version) := by
  have hneg : ∀ t : ℚ, t < 0 → normalize_disgenet_threshold (some t) = -1 := by
    intro t ht
    simp [normalize_disgenet_threshold, ht]
  have hbig : ∀ t : ℚ, 1 < t → normalize_disgenet_threshold (some t) = 2 := by
    intro t ht
    have h0 : ¬t < 0 := by linarith
    simp [normalize_disgenet_threshold, h0, ht]
  refine ⟨rfl, hneg, hbig, ?_, ?_⟩
  · intro t1 t2 h1 h2
    simp [graphQuery, hneg t1 h1, hneg t2 h2]
  · intro t1 t2 h1 h2
    simp [graphQuery, hbig t1 h1, hbig t2 h2]

/-- Witness for C10 at concrete thresholds `-3` and `-1/2` (also `3/2`,
`7`). -/
theorem graph_disgenet_threshold_normalization_witness :
    ((-3 : ℚ) < 0 ∧ (-1/2 : ℚ) < 0 ∧
      graphQuery none none none none none none none (some (-3)) none none none "2.6.0" =
        graphQuery none none none none none none none (some (-1/2)) none none none "2.6.0") ∧
    ((1 : ℚ) < 3/2 ∧ (1 : ℚ) < 7 ∧
      graphQuery none none none none none none none (some (3/2)) none none none "2.6.0" =
        graphQuery none none none none none none none (some 7) none none none "2.6.0") := by
  refine ⟨⟨by norm_num, by norm_num, ?_⟩, ⟨by norm_num, by norm_num, ?_⟩⟩
  · exact (graph_disgenet_threshold_normalization none none none none none none
      none none none none "2.6.0").2.2.2.1 (-3) (-1/2) (by norm_num) (by norm_num)
  · exact (graph_disgenet_threshold_normalization none none none none none none
      none none none none "2.6.0").2.2.2.2 (3/2) 7 (by norm_num) (by norm_num)

theorem statusOk_trustrank (pre : Option String) (code : Int) (nSet : Bool)
    (post : Option String) :
    statusOk "running" (statusHistory (run_trustrank_wrapper true pre code nSet post)) := by
  cases pre <;> cases nSet <;> cases post <;> rcases eq_or_ne code 0 with hc | hc <;>
    simp [run_trustrank_wrapper, run_trustrank, wrapBody, statusHistory,
      runningU, failedU, completedU, hc] <;> decide

theorem statusOk_closeness (pre : Option String) (code : Int) (nSet : Bool)
    (post : Option String) :
    statusOk "running" (statusHistory (run_closeness_wrapper true pre code nSet post)) := by
  cases pre <;> cases nSet <;> cases post <;> rcases eq_or_ne code 0 with hc | hc <;>
    simp [run_closeness_wrapper, run_closeness, wrapBody, statusHistory,
      runningU, failedU, completedU, hc] <;> decide

theorem statusOk_must (pre : Option String) (code : Int) (post : Option String) :
    statusOk "running" (statusHistory (run_must_wrapper true pre code post)) := by
  cases pre <;> cases post <;> rcases eq_or_ne code 0 with hc | hc <;>
    simp [run_must_wrapper, run_must, wrapBody, statusHistory,
      runningU, failedU, completedU, hc] <;> decide

theorem statusOk_graph (bodyExc : Option String) :
    statusOk "building" (statusHistory (graph_constructor_wrapper bodyExc)) := by
  cases bodyExc <;>
    simp [graph_constructor_wrapper, graph_constructor_trace, wrapBody,
      statusHistory, buildingU, failedU, completedU] <;> decide

/-- **C4 (amended).** In every execution of a scheduled job, the record's
status reaches `completed`/`failed` only after the executor's intermediate
status — which is `"running"` for trustrank, closeness and MuST but
`"building"` for the graph builder — and after a terminal status no update
sets `submitted`, `running`, or the intermediate status again.  (As stated
the claim is false for graph builds, whose records are never set to
`running`; see the counterexample.) -/
theorem job_status_machine_forward
    (preT preC preM gExc postT postC postM : Option String)
    (codeT codeC codeM : Int) (nT nC : Bool) :
    statusOk "running" (statusHistory (run_trustrank_wrapper true preT codeT nT postT)) ∧
    statusOk "building" (statusHistory (graph_constructor_wrapper gExc)) ∧
    statusOk "running" (statusHistory (run_closeness_wrapper true preC codeC nC postC)) ∧
    statusOk "running" (statusHistory (run_must_wrapper true preM codeM postM)) :=
  ⟨statusOk_trustrank preT codeT nT postT, statusOk_graph gExc,
   statusOk_closeness preC codeC nC postC, statusOk_must preM codeM postM⟩

/-- **C4 counterexample.** A successful graph build's status history is
`submitted, building, completed`: the record reaches `completed` without
ever having been set to `running`, refuting the claim as stated for the
graph-build job kind. -/
theorem graph_status_never_running :
    "completed" ∈ statusHistory (graph_constructor_wrapper none) ∧
    "running" ∉ statusHistory (graph_constructor_wrapper none) ∧
    statusHistory (graph_constructor_wrapper none) =
      ["submitted", "building", "completed"] := by
  decide

theorem trustrank_failure_contained (pre : Option String) (code : Int)
    (nSet : Bool) (post : Option String) :
    wellTerminated (run_trustrank_wrapper true pre code nSet post) = true ∧
    ((run_trustrank true pre code nSet post).2.isSome →
      lastStatus (run_trustrank_wrapper true pre code nSet post) = some "failed") ∧
    (pre = none → code ≠ 0 →
      lastStatus (run_trustrank_wrapper true pre code nSet post) = some "failed") := by
  cases pre <;> cases nSet <;> cases post <;> rcases eq_or_ne code 0 with hc | hc <;>
    simp [run_trustrank_wrapper, run_trustrank, wrapBody, wellTerminated,
      lastStatus, runningU, failedU, completedU, hc]

theorem closeness_failure_contained (pre : Option String) (code : Int)
    (nSet : Bool) (post : Option String) :
    wellTerminated (run_closeness_wrapper true pre code nSet post) = true ∧
    ((run_closeness true pre code nSet post).2.isSome →
      lastStatus (run_closeness_wrapper true pre code nSet post) = some "failed") ∧
    (pre = none → code ≠ 0 →
      lastStatus (run_closeness_wrapper true pre code nSet post) = some "failed") := by
  cases pre <;> cases nSet <;> cases post <;> rcases eq_or_ne code 0 with hc | hc <;>
    simp [run_closeness_wrapper, run_closeness, wrapBody, wellTerminated,
      lastStatus, runningU, failedU, completedU, hc]

theorem must_failure_contained (pre : Option String) (code : Int)
    (post : Option String) :
    wellTerminated (run_must_wrapper true pre code post) = true ∧
    ((run_must true pre code post).2.isSome →
      lastStatus (run_must_wrapper true pre code post) = some "failed") ∧
    (pre = none → code ≠ 0 →
      lastStatus (run_must_wrapper true pre code post) = some "failed") := by
  cases pre <;> cases post <;> rcases eq_or_ne code 0 with hc | hc <;>
    simp [run_must_wrapper, run_must, wrapBody, wellTerminated,
      lastStatus, runningU, failedU, completedU, hc]

theorem graph_failure_contained (bodyExc : Option String) :
    wellTerminated (graph_constructor_wrapper bodyExc) = true ∧
    ((graph_constructor_trace bodyExc).2.isSome →
      lastStatus (graph_constructor_wrapper bodyExc) = some "failed") := by
  cases bodyExc <;>
    simp [graph_constructor_wrapper, graph_constructor_trace, wrapBody,
      wellTerminated, lastStatus, buildingU, failedU, completedU]

/-- **C9.** For every job execution (trustrank, closeness, MuST, graph
build) of a scheduled record: an exception escaping the job body is caught
by the outermost wrapper and a non-zero subprocess exit code is caught in
the body, each ending the trace with a `failed` update that carries an error
string; every execution ends in `completed` or in `failed`-with-error, so no
failing execution leaves the record at `submitted` or `running`, and the
wrapper never propagates an exception (it is a total function into update
lists). -/
theorem job_failure_containment
    (preT preC preM gExc postT postC postM : Option String)
    (codeT codeC codeM : Int) (nT nC : Bool) :
    (wellTerminated (run_trustrank_wrapper true preT codeT nT postT) = true ∧
      ((run_trustrank true preT codeT nT postT).2.isSome →
        lastStatus (run_trustrank_wrapper true preT codeT nT postT) = some "failed") ∧
      (preT = none → codeT ≠ 0 →
        lastStatus (run_trustrank_wrapper true preT codeT nT postT) = some "failed")) ∧
    (wellTerminated (run_closeness_wrapper true preC codeC nC postC) = true ∧
      ((run_closeness true preC codeC nC postC).2.isSome →
        lastStatus (run_closeness_wrapper true preC codeC nC postC) = some "failed") ∧
      (preC = none → codeC ≠ 0 →
        lastStatus (run_closeness_wrapper true preC codeC nC postC) = some "failed")) ∧
    (wellTerminated (run_must_wrapper true preM codeM postM) = true ∧
      ((run_must true preM codeM postM).2.isSome →
        lastStatus (run_must_wrapper true preM codeM postM) = some "failed") ∧
      (preM = none → codeM ≠ 0 →
        lastStatus (run_must_wrapper true preM codeM postM) = some "failed")) ∧
    (wellTerminated (graph_constructor_wrapper gExc) = true ∧
      ((graph_constructor_trace gExc).2.isSome →
        lastStatus (graph_constructor_wrapper gExc) = some "failed")) :=
  ⟨trustrank_failure_contained preT codeT nT postT,
   closeness_failure_contained preC codeC nC postC,
   must_failure_contained preM codeM postM,
   graph_failure_contained gExc⟩

/-- Witness for C9: a trustrank run whose subprocess exits with code 2 ends
`failed`, and a graph build whose body raises ends `failed`. -/
theorem job_failure_containment_witness :
    (none : Option String) = none ∧ (2 : Int) ≠ 0 ∧
    lastStatus (run_trustrank_wrapper true none 2 false none) = some "failed" ∧
    lastStatus (graph_constructor_wrapper (some "boom")) = some "failed" := by
  refine ⟨rfl, by decide, ?_, ?_⟩
  · exact (job_failure_containment none none none (some "boom") none none none
      2 0 0 false false).1.2.2 rfl (by decide)
  · exact (job_failure_containment none none none (some "boom") none none none
      2 0 0 false false).2.2.2.2 (by decide)

theorem hasEdge_add_edge (g : DiGraph) (a b u v : String) (attrs : Attrs) :
    (g.add_edge a b attrs).hasEdge u v = (g.hasEdge u v || (a == u && b == v)) := by
  cases h : g.hasEdge a b with
  | true =>
    have h' : (g.edges.any fun e => e.1 == a && e.2.1 == b) = true := h
    simp only [DiGraph.add_edge, DiGraph.hasEdge, h', if_true]
    rw [List.any_map]
    have hfun : ((fun e : String × String × Attrs => e.1 == u && e.2.1 == v) ∘
        (fun e : String × String × Attrs =>
          if e.1 == a && e.2.1 == b then (e.1, e.2.1, updateAttrs e.2.2 attrs) else e)) =
        (fun e : String × String × Attrs => e.1 == u && e.2.1 == v) := by
      funext e
      by_cases he : (e.1 == a && e.2.1 == b) = true <;> simp [Function.comp, he]
    rw [hfun]
    cases hab : (a == u && b == v) with
    | false => simp
    | true =>
      obtain ⟨ha, hb⟩ := Bool.and_eq_true_iff.mp hab
      have ha' : a = u := by simpa using ha
      have hb' : b = v := by simpa using hb
      subst ha' hb'
      simp only [DiGraph.hasEdge] at h
      simp [h]
  | false =>
    have h' : (g.edges.any fun e => e.1 == a && e.2.1 == b) = false := h
    simp only [DiGraph.add_edge, DiGraph.hasEdge, h', Bool.false_eq_true, if_false]
    rw [List.any_append]
    simp

theorem hasEdge_gdaPass_fold (docs : List GdaDoc) (g : DiGraph) (u v : String) :
    (docs.foldl (fun acc d =>
        acc.add_edge d.sourceDomainId d.targetDomainId (gdaAttrs d)) g).hasEdge u v =
      (g.hasEdge u v ||
        docs.any (fun d => d.sourceDomainId == u && d.targetDomainId == v)) := by
  induction docs generalizing g with
  | nil => simp
  | cons d ds ih =>
    simp only [List.foldl_cons, List.any_cons]
    rw [ih, hasEdge_add_edge]
    cases g.hasEdge u v <;>
      cases hm : (d.sourceDomainId == u && d.targetDomainId == v) <;> simp [hm]

/-- **C5.** In the gene–disorder edge pass, an association edge document is
scheduled for `add_edge` iff it is OMIM-asserted (and `include_omim` is set)
OR its score meets the DisGeNET threshold — the two criteria are a union —
and an `(s, t)` edge exists in the resulting graph iff some document passing
that union filter has those endpoints. -/
theorem gda_edge_inclusion_union (include_omim : Bool) (t : ℚ)
    (docs : List GdaDoc) (d : GdaDoc) (s tg : String) :
    (d ∈ gdaDocsAdded include_omim t docs ↔
      d ∈ docs ∧
        ((include_omim = true ∧ gdaOmimMatch d = true) ∨ gdaScoreMatch t d = true)) ∧
    ((gdaPass DiGraph.empty include_omim t docs).hasEdge s tg = true ↔
      ∃ d2 ∈ gdaDocsAdded include_omim t docs,
        d2.sourceDomainId = s ∧ d2.targetDomainId = tg) := by
  constructor
  · cases include_omim <;> simp [gdaDocsAdded, List.mem_filter]
    all_goals tauto
  · rw [gdaPass, hasEdge_gdaPass_fold]
    simp [DiGraph.empty, DiGraph.hasEdge, List.any_eq_true]

theorem countEdges_eq_zero_of_hasEdge_false (g : DiGraph) (u v : String)
    (h : g.hasEdge u v = false) : countEdges g u v = 0 := by
  simp only [DiGraph.hasEdge, List.any_eq_false] at h
  simp only [countEdges, List.length_eq_zero, List.filter_eq_nil_iff]
  exact h

theorem countEdges_add_edge_le (g : DiGraph) (a b : String) (attrs : Attrs)
    (h : ∀ x y, countEdges g x y ≤ 1) (u v : String) :
    countEdges (g.add_edge a b attrs) u v ≤ 1 := by
  cases he : g.hasEdge a b with
  | true =>
    simp only [countEdges, DiGraph.add_edge, he, eq_self_iff_true, if_true]
    have hfun : ((fun e : String × String × Attrs => e.1 == u && e.2.1 == v) ∘
        (fun e : String × String × Attrs =>
          if e.1 == a && e.2.1 == b then (e.1, e.2.1, updateAttrs e.2.2 attrs) else e)) =
        (fun e : String × String × Attrs => e.1 == u && e.2.1 == v) := by
      funext e
      by_cases hx : (e.1 == a && e.2.1 == b) = true <;> simp [Function.comp, hx]
    rw [List.filter_map, hfun, List.length_map]
    exact h u v
  | false =>
    simp only [countEdges, DiGraph.add_edge, he, Bool.false_eq_true, if_false]
    rw [List.filter_append, List.length_append]
    by_cases hab : (a == u && b == v) = true
    · obtain ⟨ha, hb⟩ := Bool.and_eq_true_iff.mp hab
      have ha' : a = u := by simpa using ha
      have hb' : b = v := by simpa using hb
      subst ha' hb'
      have hz : countEdges g a b = 0 := countEdges_eq_zero_of_hasEdge_false g a b he
      simp only [countEdges] at hz
      simp [hz, List.filter]
    · have : (([(a, b, attrs)] : List (String × String × Attrs)).filter
          (fun e => e.1 == u && e.2.1 == v)).length = 0 := by
        simp only [List.filter, hab]
        rfl
      rw [this]
      have := h u v
      simp only [countEdges] at this
      omega

/-- **C8 (amended).** The constructed graph is a *simple* directed graph
(`nx.DiGraph`), not a multigraph: after the generic edge pass, every ordered
endpoint pair carries at most one edge, whatever the documents were; a later
document with the same ordered endpoints merges into (overwrites the
attributes of) the earlier edge. -/
theorem genericEdgePass_at_most_one_edge (docs : List EdgeDoc) (u v : String) :
    countEdges (genericEdgePass DiGraph.empty docs) u v ≤ 1 := by
  suffices h : ∀ g : DiGraph, (∀ x y, countEdges g x y ≤ 1) →
      ∀ x y, countEdges (docs.foldl addGenericEdge g) x y ≤ 1 by
    exact h DiGraph.empty (fun x y => by simp [countEdges, DiGraph.empty]) u v
  induction docs with
  | nil => intro g hg; exact hg
  | cons d ds ih =>
    intro g hg
    apply ih
    intro x y
    cases hd : d.ends with
    | members m1 m2 =>
      simp only [addGenericEdge, hd]
      exact countEdges_add_edge_le g m1 m2 _ hg x y
    | sourceTarget s t =>
      simp only [addGenericEdge, hd]
      exact countEdges_add_edge_le g s t _ hg x y

/-- **C8 counterexample.** Two distinct directed edge documents with the
same ordered endpoint pair (e.g. from two different edge types) leave only
*one* edge in the constructed graph, whose attributes are the second
document's — the DiGraph merge discards the first document's attributes,
refuting the claim that both edges are present. -/
theorem digraph_overwrites_parallel_edge :
    countEdges (genericEdgePass DiGraph.empty
      [⟨.sourceTarget "a" "b", "TypeOne"⟩, ⟨.sourceTarget "a" "b", "TypeTwo"⟩])
      "a" "b" = 1 ∧
    (genericEdgePass DiGraph.empty
      [⟨.sourceTarget "a" "b", "TypeOne"⟩, ⟨.sourceTarget "a" "b", "TypeTwo"⟩]).edges =
      [("a", "b",
        [("reversible", AValue.b false), ("sourceDomainId", AValue.s "a"),
         ("targetDomainId", AValue.s "b"), ("type", AValue.s "TypeTwo")])] := by
  constructor
  · rfl
  · rfl

theorem eq_of_nodup_keys {l : List (String × Attrs)}
    (hn : (l.map Prod.fst).Nodup) {p p' : String × Attrs}
    (hp : p ∈ l) (hp' : p' ∈ l) (hk : p.1 = p'.1) : p = p' := by
  induction l with
  | nil => cases hp
  | cons q t ih =>
    rw [List.map_cons, List.nodup_cons] at hn
    obtain ⟨hq, ht⟩ := hn
    cases hp with
    | head =>
      cases hp' with
      | head => rfl
      | tail _ h' =>
        exact absurd (hk ▸ List.mem_map_of_mem Prod.fst h') hq
    | tail _ h =>
      cases hp' with
      | head =>
        exact absurd (hk ▸ List.mem_map_of_mem Prod.fst h) hq
      | tail _ h' => exact ih ht h h'

/-- **C6.** After the isolated-node pruning pass, a node of the input graph
remains in the output iff its `type` attribute is one of the requested type
names or it has at least one incident edge; in particular every node of a
non-requested type with no incident edge is removed.  (The pass itself
fails with a `KeyError` when some node lacks a `type` attribute, hence the
`Except.ok` hypothesis.) -/
theorem lone_node_pruning_correct (g : DiGraph) (colls : List String)
    (g' : DiGraph) (hnodup : (g.nodes.map Prod.fst).Nodup)
    (hok : sortingLoneNodes g (nodes_requested colls) = Except.ok g') :
    ∀ p ∈ g.nodes, (p ∈ g'.nodes ↔
      ((∃ t, getAttr p.2 "type" = some (AValue.s t) ∧ t ∈ nodes_requested colls) ∨
        hasIncident g p.1 = true)) := by
  unfold sortingLoneNodes at hok
  by_cases hall : (g.nodes.all fun p => (getAttr p.2 "type").isSome) = true
  case neg =>
    rw [if_neg hall] at hok
    cases hok
  case pos =>
    rw [if_pos hall] at hok
    have hg : g.remove_nodes_from
        ((g.nodes.filter (loneRemovable g (nodes_requested colls))).map Prod.fst) = g' := by
      injection hok
    subst hg
    intro p hp
    have hmem : p ∈ (g.remove_nodes_from
        ((g.nodes.filter (loneRemovable g (nodes_requested colls))).map Prod.fst)).nodes ↔
        ¬ p.1 ∈ (g.nodes.filter (loneRemovable g (nodes_requested colls))).map Prod.fst := by
      simp only [DiGraph.remove_nodes_from, List.mem_filter]
      constructor
      · intro h
        have := h.2
        simpa using this
      · intro h
        refine ⟨hp, ?_⟩
        simpa using h
    rw [hmem]
    have hrm : p.1 ∈ (g.nodes.filter (loneRemovable g (nodes_requested colls))).map Prod.fst ↔
        loneRemovable g (nodes_requested colls) p = true := by
      constructor
      · intro h
        obtain ⟨p', hp', hk⟩ := List.mem_map.mp h
        rw [List.mem_filter] at hp'
        have : p' = p := eq_of_nodup_keys hnodup hp'.1 hp hk
        rw [← this]
        exact hp'.2
      · intro h
        exact List.mem_map_of_mem Prod.fst (List.mem_filter.mpr ⟨hp, h⟩)
    rw [hrm]
    have htype : (getAttr p.2 "type").isSome := by
      have := List.all_eq_true.mp hall p hp
      simpa using this
    cases hv : getAttr p.2 "type" with
    | none => rw [hv] at htype; cases htype
    | some v =>
      cases v with
      | s t =>
        simp only [loneRemovable, hv]
        simp only [Bool.and_eq_true, Bool.not_eq_true', not_and,
          Option.some.injEq, AValue.s.injEq]
        constructor
        · intro h
          by_cases hc : t ∈ nodes_requested colls
          · exact Or.inl ⟨t, rfl, hc⟩
          · right
            have := h (by simpa using hc)
            simpa using this
        · intro h hc hinc
          cases h with
          | inl h2 =>
            obtain ⟨t2, ht2, hc2⟩ := h2
            subst ht2
            simp at hc
            exact hc hc2
          | inr h2 => rw [h2] at hinc; cases hinc
      | b v2 =>
        simp only [loneRemovable, hv, Bool.not_eq_true']
        constructor
        · intro h
          right
          simpa using h
        · intro h hinc
          cases h with
          | inl h2 => obtain ⟨t2, ht2, _⟩ := h2; cases ht2
          | inr h2 => rw [h2] at hinc; cases hinc
      | i v2 =>
        simp only [loneRemovable, hv, Bool.not_eq_true']
        constructor
        · intro h
          right
          simpa using h
        · intro h hinc
          cases h with
          | inl h2 => obtain ⟨t2, ht2, _⟩ := h2; cases ht2
          | inr h2 => rw [h2] at hinc; cases hinc
      | q v2 =>
        simp only [loneRemovable, hv, Bool.not_eq_true']
        constructor
        · intro h
          right
          simpa using h
        · intro h hinc
          cases h with
          | inl h2 => obtain ⟨t2, ht2, _⟩ := h2; cases ht2
          | inr h2 => rw [h2] at hinc; cases hinc

/-- Witness for C6: a protein with no incident edge is pruned when only
disorders are requested, while the disorder node is retained. -/
theorem lone_node_pruning_witness :
    (pruneExampleGraph.nodes.map Prod.fst).Nodup ∧
    sortingLoneNodes pruneExampleGraph (nodes_requested ["disorder"]) =
      Except.ok ⟨[("b", [("type", AValue.s "Disorder")])], []⟩ ∧
    ((("b", [("type", AValue.s "Disorder")]) ∈
        (⟨[("b", [("type", AValue.s "Disorder")])], []⟩ : DiGraph).nodes) ↔
      ((∃ t, getAttr [("type", AValue.s "Disorder")] "type" = some (AValue.s t) ∧
          t ∈ nodes_requested ["disorder"]) ∨
        hasIncident pruneExampleGraph "b" = true)) := by
  refine ⟨by decide, by rfl, ?_⟩
  exact lone_node_pruning_correct pruneExampleGraph ["disorder"]
    ⟨[("b", [("type", AValue.s "Disorder")])], []⟩ (by decide) (by rfl)
    ("b", [("type", AValue.s "Disorder")]) (by decide)

theorem getAttr_setAttr_self (a : Attrs) (k : String) (v : AValue) :
    getAttr (setAttr a k v) k = some v := by
  induction a with
  | nil => simp [setAttr, getAttr, List.find?]
  | cons p t ih =>
    by_cases hp : (p.1 == k) = true
    · simp [setAttr, hp, getAttr, List.find?]
    · have hp2 : (p.1 == k) = false := by simpa using hp
      simp only [setAttr, hp2, Bool.false_eq_true, if_false]
      simp only [getAttr, List.find?, hp2] at ih ⊢
      exact ih

theorem getAttr_setAttr_ne (a : Attrs) (k k2 : String) (v : AValue)
    (h : k2 ≠ k) : getAttr (setAttr a k v) k2 = getAttr a k2 := by
  have hbeq : (k == k2) = false := by
    simpa using fun hk => h hk.symm
  induction a with
  | nil => simp [setAttr, getAttr, List.find?, hbeq]
  | cons p t ih =>
    by_cases hp : (p.1 == k) = true
    · have hp1 : p.1 = k := by simpa using hp
      simp only [setAttr, hp, if_true]
      simp only [getAttr, List.find?, hp1, hbeq]
    · simp only [setAttr, hp, Bool.false_eq_true, if_false]
      by_cases hp2 : (p.1 == k2) = true
      · simp only [getAttr, List.find?, hp2]
      · simp only [getAttr, List.find?, hp2, Bool.false_eq_true, if_false] at *
        exact ih

theorem getAttr_fixKey_self (key : String) (val : AValue) (a : Attrs) :
    getAttr (fixKey key val a) key = none ∨
      getAttr (fixKey key val a) key = some val := by
  unfold fixKey
  cases h : getAttr a key with
  | none => left; exact h
  | some w =>
    by_cases hw : w = val
    · right
      simp only [hw, if_true]
      rw [h, hw]
    · right
      simp only [hw, Bool.false_eq_true, if_false]
      exact getAttr_setAttr_self a key val

theorem getAttr_fixKey_ne (key k2 : String) (val : AValue) (a : Attrs)
    (h : k2 ≠ key) : getAttr (fixKey key val a) k2 = getAttr a k2 := by
  unfold fixKey
  cases hk : getAttr a key with
  | none => rfl
  | some w =>
    by_cases hw : w = val
    · simp only [hw, if_true]
    · simp only [hw, Bool.false_eq_true, if_false]
      exact getAttr_setAttr_ne a key k2 val h

theorem fixEdgeAttrs_memberOne (i j : String) (a : Attrs) (v : AValue)
    (h : getAttr (fixEdgeAttrs i j a) "memberOne" = some v) : v = AValue.s i := by
  unfold fixEdgeAttrs at h
  rw [getAttr_fixKey_ne _ _ _ _ (by decide)] at h
  rw [getAttr_fixKey_ne _ _ _ _ (by decide)] at h
  rw [getAttr_fixKey_ne _ _ _ _ (by decide)] at h
  rcases getAttr_fixKey_self "memberOne" (AValue.s i) a with h2 | h2 <;> rw [h2] at h
  · cases h
  · injection h with h
    exact h.symm

theorem fixEdgeAttrs_memberTwo (i j : String) (a : Attrs) (v : AValue)
    (h : getAttr (fixEdgeAttrs i j a) "memberTwo" = some v) : v = AValue.s j := by
  unfold fixEdgeAttrs at h
  rw [getAttr_fixKey_ne _ _ _ _ (by decide)] at h
  rw [getAttr_fixKey_ne _ _ _ _ (by decide)] at h
  rcases getAttr_fixKey_self "memberTwo" (AValue.s j)
      (fixKey "memberOne" (AValue.s i) a) with h2 | h2 <;> rw [h2] at h
  · cases h
  · injection h with h
    exact h.symm

theorem fixEdgeAttrs_source (i j : String) (a : Attrs) (v : AValue)
    (h : getAttr (fixEdgeAttrs i j a) "sourceDomainId" = some v) :
    v = AValue.s i := by
  unfold fixEdgeAttrs at h
  rw [getAttr_fixKey_ne _ _ _ _ (by decide)] at h
  rcases getAttr_fixKey_self "sourceDomainId" (AValue.s i)
      (fixKey "memberTwo" (AValue.s j) (fixKey "memberOne" (AValue.s i) a)) with
    h2 | h2 <;> rw [h2] at h
  · cases h
  · injection h with h
    exact h.symm

theorem fixEdgeAttrs_target (i j : String) (a : Attrs) (v : AValue)
    (h : getAttr (fixEdgeAttrs i j a) "targetDomainId" = some v) :
    v = AValue.s j := by
  unfold fixEdgeAttrs at h
  rcases getAttr_fixKey_self "targetDomainId" (AValue.s j)
      (fixKey "sourceDomainId" (AValue.s i)
        (fixKey "memberTwo" (AValue.s j) (fixKey "memberOne" (AValue.s i) a))) with
    h2 | h2 <;> rw [h2] at h
  · cases h
  · injection h with h
    exact h.symm

/-- **C7.** After the `use_omim_ids` relabeling pass, every edge attribute
that duplicates an endpoint identifier (`memberOne`, `memberTwo`,
`sourceDomainId`, `targetDomainId`) equals the corresponding endpoint of its
edge: no edge attribute references a pre-relabel identifier. -/
theorem relabel_no_stale_endpoint_attrs (g : DiGraph) (docs : List DisorderDoc) :
    ∀ e ∈ (use_omim_ids_pass g docs).edges,
      (∀ v, getAttr e.2.2 "memberOne" = some v → v = AValue.s e.1) ∧
      (∀ v, getAttr e.2.2 "memberTwo" = some v → v = AValue.s e.2.1) ∧
      (∀ v, getAttr e.2.2 "sourceDomainId" = some v → v = AValue.s e.1) ∧
      (∀ v, getAttr e.2.2 "targetDomainId" = some v → v = AValue.s e.2.1) := by
  intro e he
  have he2 : ∃ a b c,
      ((a, b, c) ∈ ((set_node_attributes g
        (List.map (fun p => (p.1, [("primaryDomainId", AValue.s p.2)]))
          (mondomim_map docs g))).relabel_nodes (mondomim_map docs g)).edges ∧
      (a, b, fixEdgeAttrs a b c) = e) := by
    simpa [use_omim_ids_pass] using he
  obtain ⟨a, b, c, hmem, rfl⟩ := he2
  exact ⟨fun v hv => fixEdgeAttrs_memberOne a b c v hv,
         fun v hv => fixEdgeAttrs_memberTwo a b c v hv,
         fun v hv => fixEdgeAttrs_source a b c v hv,
         fun v hv => fixEdgeAttrs_target a b c v hv⟩

/-- Witness for C7: on the relabel fixture, the relabeled edge's
`targetDomainId` attribute equals its new endpoint `omim.5`. -/
theorem relabel_no_stale_endpoint_attrs_witness :
    (("gene.7", "omim.5",
      [("reversible", AValue.b false), ("sourceDomainId", AValue.s "gene.7"),
       ("targetDomainId", AValue.s "omim.5"),
       ("type", AValue.s "GeneAssociatedWithDisorder")]) ∈
      (use_omim_ids_pass relabelExampleGraph relabelExampleDocs).edges) ∧
    getAttr
      [("reversible", AValue.b false), ("sourceDomainId", AValue.s "gene.7"),
       ("targetDomainId", AValue.s "omim.5"),
       ("type", AValue.s "GeneAssociatedWithDisorder")] "targetDomainId" =
      some (AValue.s "omim.5") ∧
    AValue.s "omim.5" = AValue.s "omim.5" := by
  refine ⟨by decide, by decide, ?_⟩
  exact (relabel_no_stale_endpoint_attrs relabelExampleGraph relabelExampleDocs
    ("gene.7", "omim.5",
      [("reversible", AValue.b false), ("sourceDomainId", AValue.s "gene.7"),
       ("targetDomainId", AValue.s "omim.5"),
       ("type", AValue.s "GeneAssociatedWithDisorder")]) (by decide)).2.2.2
    (AValue.s "omim.5") (by decide)

/-- Witness for C1 at a concrete input: empty store, query `"p"`. -/
theorem submit_sequential_idempotent_witness :
    countFor ([] : List (Record String)) "p" ≤ 1 ∧
    (submit ([] : List (Record String)) "p" "uid-1").1 =
      (submit (submit ([] : List (Record String)) "p" "uid-1").2 "p" "uid-2").1 := by
  refine ⟨by decide, ?_⟩
  exact (submit_sequential_idempotent ([] : List (Record String)) "p" "uid-1" "uid-2"
    (by decide)).1

end NedRex
